import Mathlib

/-!
Verification of the coinlila safety layer: a shallow embedding of the
risk-state package (`risk`), the day manager (`risk.DayManager` with the
`util` calendar helpers) and the execution-safety wrapper
(`guards.SafeExchange`), together with theorems settling the frozen claims.

Modelling conventions:
* Go `float64` money/price/quantity values are modelled as `ℚ` (exact
  arithmetic; the claims are about comparison/branch structure, not
  floating-point rounding).
* Go `time.Time` instants are modelled as `Int` nanoseconds since Go's zero
  `time.Time` (January 1, year 1 UTC); the zero value of `time.Time` is `0`.
  Go `time.Duration` values are `Int` nanoseconds; `time.Time.Sub` (and hence
  `time.Since`) saturates at the extreme `int64` durations, which `timeSub`
  reproduces.
* Timezones are modelled as fixed offsets (seconds east of UTC scaled to
  nanoseconds are folded into the `Int` offset `tz`); `TodayOpen` is the
  instant of the local midnight of the local day containing `now`, exactly
  the fixed-offset behaviour of `util.TodayOpen`.
-/

/-- `time.Duration` maximum: `1<<63 - 1` nanoseconds (≈ 292 years). -/
def maxDuration : Int := 9223372036854775807

/-- `time.Duration` minimum: `-1 << 63` nanoseconds. -/
def minDuration : Int := -9223372036854775808

/-- Go `time.Time.Sub`: the difference `t - u`, saturating at the maximal /
minimal representable `time.Duration`. -/
def timeSub (t u : Int) : Int :=
  if t - u > maxDuration then maxDuration
  else if t - u < minDuration then minDuration
  else t - u

/-- `risk.State`: dynamic trading state and rolling metrics
(src/unnamed/part_000). -/
structure RState where
  equityAtOpenUSD : ℚ
  equityNowUSD : ℚ
  ordersToday : ℤ
  realizedPnLUSD : ℚ
  lastErrorTime : Int
  errorCooldown : Int
  dayOpen : Int
  prices : List ℚ
deriving DecidableEq

/-- `risk.NewState`: initializes risk state at day open with equity snapshot.
`cooldownSec` is converted to nanoseconds as `time.Duration(cooldownSec) *
time.Second` does. -/
def NewState (equityAtOpenUSD : ℚ) (cooldownSec : Int) (dayOpen : Int) : RState :=
  { equityAtOpenUSD := equityAtOpenUSD
    equityNowUSD := 0
    ordersToday := 0
    realizedPnLUSD := 0
    lastErrorTime := 0
    errorCooldown := cooldownSec * 1000000000
    dayOpen := dayOpen
    prices := [] }

/-- `State.NoteError`: records the current instant as the error timestamp
(`s.LastErrorTime = time.Now()`; the caller's current instant is passed
explicitly). -/
def NoteError (s : RState) (now : Int) : RState :=
  { s with lastErrorTime := now }

/-- `State.CanAct`: `time.Since(s.LastErrorTime) >= s.ErrorCooldown`, where
`time.Since` is evaluated at the caller's `now`. -/
def CanAct (s : RState) (now : Int) : Bool :=
  decide (timeSub now s.lastErrorTime ≥ s.errorCooldown)

/-- `State.ResetDay`. -/
def ResetDay (s : RState) (newEquity : ℚ) (newOpen : Int) : RState :=
  { s with
    equityAtOpenUSD := newEquity
    equityNowUSD := newEquity
    ordersToday := 0
    realizedPnLUSD := 0
    dayOpen := newOpen
    prices := [] }

/-- `State.UpdateEquity`. -/
def UpdateEquity (s : RState) (current : ℚ) : RState :=
  { s with equityNowUSD := current }

/-- `State.BreachDailyLoss`: the daily kill-switch check. -/
def BreachDailyLoss (s : RState) (maxLossPct : ℚ) : Bool :=
  if s.equityAtOpenUSD ≤ 0 then false
  else decide ((s.equityAtOpenUSD - s.equityNowUSD) / s.equityAtOpenUSD * 100 ≥ maxLossPct)

/-- `State.CountOrder`. -/
def CountOrder (s : RState) : RState :=
  { s with ordersToday := s.ordersToday + 1 }

/-- `State.PushPrice`: append `px`, then drop the oldest entry if the length
exceeds `lookback` (Go slices one element off the front). -/
def PushPrice (prices : List ℚ) (px : ℚ) (lookback : ℤ) : List ℚ :=
  let p := prices ++ [px]
  if (p.length : ℤ) > lookback then p.drop 1 else p

/-- The last `min (l.length) k` elements of `l`, in order: the intended
contents of the rolling window after pushing all of `l` with lookback `k`. -/
def lastWindow (lb : ℤ) (l : List ℚ) : List ℚ :=
  l.drop (l.length - lb.toNat)

theorem lastWindow_length (lb : ℤ) (l : List ℚ) :
    (lastWindow lb l).length = l.length - (l.length - lb.toNat) := by
  simp [lastWindow]

theorem pushPrice_lastWindow (lb : ℤ) (hlb : 0 ≤ lb) (l : List ℚ) (px : ℚ) :
    PushPrice (lastWindow lb l) px lb = lastWindow lb (l ++ [px]) := by
  set k := lb.toNat with hk
  have hkz : (k : ℤ) = lb := Int.toNat_of_nonneg hlb
  by_cases hlen : l.length < k
  · -- window not yet full: nothing is dropped
    have hwin : lastWindow lb l = l := by
      simp [lastWindow, Nat.sub_eq_zero_of_le (le_of_lt hlen)]
    have hcond : ¬ ((l.length + 1 : ℤ) > lb) := by
      rw [← hkz]
      exact_mod_cast not_lt.mpr (Nat.succ_le_of_lt hlen)
    simp only [PushPrice, hwin, List.length_append, List.length_cons,
      List.length_nil]
    rw [if_neg (by simpa using hcond)]
    simp [lastWindow, Nat.sub_eq_zero_of_le (Nat.succ_le_of_lt hlen)]
  · -- window full: push then drop the oldest
    push_neg at hlen
    have hwlen : (lastWindow lb l).length = k := by
      rw [lastWindow_length]
      omega
    have hcond : ((lastWindow lb l).length + 1 : ℤ) > lb := by
      rw [hwlen, ← hkz]
      exact_mod_cast Nat.lt_succ_self k
    simp only [PushPrice, List.length_append, List.length_cons, List.length_nil]
    rw [if_pos (by simpa using hcond)]
    rcases Nat.eq_zero_or_pos k with hk0 | hkpos
    · -- lookback 0: window is always empty
      have hL : lastWindow lb l = [] := by
        apply List.drop_eq_nil_of_le
        omega
      have hR : lastWindow lb (l ++ [px]) = [] := by
        apply List.drop_eq_nil_of_le
        simp
        omega
      rw [hL, hR]
      rfl
    · -- lookback ≥ 1: dropping one from the front keeps the last k
      have h1 : (1 : ℕ) ≤ (l.drop (l.length - k)).length := by
        rw [List.length_drop]; omega
      have harith : (l ++ [px]).length - k = (l.length - k) + 1 := by
        simp; omega
      rw [lastWindow, List.drop_append_of_le_length h1, List.drop_drop,
        lastWindow, harith,
        List.drop_append_of_le_length (by omega : l.length - k + 1 ≤ l.length)]

theorem pushPrice_foldl_eq (lb : ℤ) (hlb : 0 ≤ lb) (seq : List ℚ) :
    seq.foldl (fun w px => PushPrice w px lb) [] = lastWindow lb seq := by
  induction seq using List.reverseRecOn with
  | nil => simp [lastWindow]
  | append_singleton l a ih =>
      rw [List.foldl_append, List.foldl_cons, List.foldl_nil, ih,
        pushPrice_lastWindow lb hlb]

/-- C7: for every sequence of pushed prices with a fixed non-negative
lookback, the rolling window built by `PushPrice` (starting empty) is exactly
the suffix of the most recently pushed prices in arrival order (the oldest
entries having been evicted first), and its length never exceeds the
lookback. -/
theorem pushPrice_window_spec (lb : ℤ) (hlb : 0 ≤ lb) (seq : List ℚ) :
    seq.foldl (fun w px => PushPrice w px lb) [] =
      seq.drop (seq.length - lb.toNat) ∧
    ((seq.foldl (fun w px => PushPrice w px lb) []).length : ℤ) ≤ lb := by
  have h := pushPrice_foldl_eq lb hlb seq
  refine ⟨h, ?_⟩
  rw [h, lastWindow_length]
  have : seq.length - (seq.length - lb.toNat) ≤ lb.toNat := by omega
  calc (↑(seq.length - (seq.length - lb.toNat)) : ℤ) ≤ (lb.toNat : ℤ) := by
        exact_mod_cast this
    _ = lb := Int.toNat_of_nonneg hlb

/-- Witness for C7 at a concrete input: pushing 1, 2, 3 with lookback 2
leaves the window `[2, 3]`. -/
theorem pushPrice_window_spec_witness :
    [(1 : ℚ), 2, 3].foldl (fun w px => PushPrice w px 2) [] = [2, 3] ∧
    (([(1 : ℚ), 2, 3].foldl (fun w px => PushPrice w px 2) []).length : ℤ) ≤ 2 := by
  have h := pushPrice_window_spec 2 (by decide) [(1 : ℚ), 2, 3]
  exact ⟨by rw [h.1]; rfl, h.2⟩

/-- The simple per-tick returns computed by `State.RealizedVol`'s first
loop: `(p[i] - p[i-1]) / p[i-1]` for `i = 1, …, n-1`, skipping any step
whose prior price is zero. -/
def retsOf (prices : List ℚ) : List ℚ :=
  (prices.zip prices.tail).filterMap
    (fun pq => if pq.1 = 0 then none else some ((pq.2 - pq.1) / pq.1))

/-- Mean of a list of returns, as `State.RealizedVol` computes it. -/
def meanOf (l : List ℚ) : ℚ := l.sum / l.length

/-- The `varsum` accumulator of `State.RealizedVol`: the sum of squared
deviations from the mean. -/
def varsumOf (l : List ℚ) : ℚ :=
  (l.map (fun r => (r - meanOf l) * (r - meanOf l))).sum

/-- `State.RealizedVol`: simple realized volatility estimator
(src/unnamed/part_000). -/
noncomputable def RealizedVol (prices : List ℚ) : ℝ :=
  if prices.length < 2 then 0
  else if (retsOf prices).length = 0 then 0
  else Real.sqrt ((varsumOf (retsOf prices) / ((retsOf prices).length : ℚ) : ℚ) : ℝ)

/-- Stated from the spec's words, for comparison with `RealizedVol`: the
population standard deviation of a list of returns — the square root of the
mean of squared deviations from the mean. -/
noncomputable def popStdDev (l : List ℚ) : ℝ :=
  Real.sqrt (((l.map (fun r => (r - l.sum / l.length) ^ 2)).sum / (l.length : ℚ) : ℚ) : ℝ)

theorem varsumOf_eq_sq_sum (l : List ℚ) :
    varsumOf l = (l.map (fun r => (r - l.sum / l.length) ^ 2)).sum := by
  unfold varsumOf meanOf
  have hf : (fun r : ℚ => (r - l.sum / (l.length : ℚ)) * (r - l.sum / (l.length : ℚ)))
      = fun r : ℚ => (r - l.sum / (l.length : ℚ)) ^ 2 := by
    funext r
    ring
  rw [hf]

theorem varsumOf_singleton (r : ℚ) : varsumOf [r] = 0 := by
  simp [varsumOf, meanOf]

theorem varsumOf_of_all_zero (l : List ℚ) (hz : ∀ x ∈ l, x = (0 : ℚ)) :
    varsumOf l = 0 := by
  have hsum : l.sum = 0 := List.sum_eq_zero hz
  apply List.sum_eq_zero
  intro y hy
  obtain ⟨x, hx, hfx⟩ := List.mem_map.mp hy
  rw [hz x hx, meanOf, hsum, zero_div, sub_zero, mul_zero] at hfx
  exact hfx.symm

theorem realizedVol_short (prices : List ℚ) (h : prices.length < 2) :
    RealizedVol prices = 0 := by
  rw [RealizedVol, if_pos h]

theorem realizedVol_of_rets_le_one (prices : List ℚ)
    (h : (retsOf prices).length ≤ 1) : RealizedVol prices = 0 := by
  rw [RealizedVol]
  by_cases hA : prices.length < 2
  · rw [if_pos hA]
  rw [if_neg hA]
  by_cases hB : (retsOf prices).length = 0
  · rw [if_pos hB]
  rw [if_neg hB]
  obtain ⟨r, hr⟩ := List.length_eq_one.mp (by omega : (retsOf prices).length = 1)
  rw [hr]
  simp [varsumOf_singleton]

theorem realizedVol_eq_popStdDev (prices : List ℚ)
    (hne : retsOf prices ≠ []) (h2 : 2 ≤ prices.length) :
    RealizedVol prices = popStdDev (retsOf prices) := by
  rw [RealizedVol, if_neg (by omega), if_neg (by simpa using hne), popStdDev,
    varsumOf_eq_sq_sum]

theorem realizedVol_const (prices : List ℚ) (c : ℚ) (hc : c ≠ 0)
    (hall : ∀ p ∈ prices, p = c) : RealizedVol prices = 0 := by
  have hz : ∀ x ∈ retsOf prices, x = (0 : ℚ) := by
    intro x hx
    obtain ⟨pq, hpq, hfx⟩ := List.mem_filterMap.mp hx
    obtain ⟨a, b⟩ := pq
    obtain ⟨ha, hb⟩ := List.of_mem_zip hpq
    rw [hall a ha, hall b (List.mem_of_mem_tail hb)] at hfx
    rw [if_neg hc] at hfx
    simp only [Option.some.injEq] at hfx
    rw [← hfx, sub_self, zero_div]
  rw [RealizedVol]
  by_cases hA : prices.length < 2
  · rw [if_pos hA]
  rw [if_neg hA]
  by_cases hB : (retsOf prices).length = 0
  · rw [if_pos hB]
  rw [if_neg hB, varsumOf_of_all_zero _ hz]
  simp

theorem realizedVol_nonneg (prices : List ℚ) : 0 ≤ RealizedVol prices := by
  rw [RealizedVol]
  split_ifs
  · exact le_refl 0
  · exact le_refl 0
  · exact Real.sqrt_nonneg _

/-- C8: `RealizedVol` equals the population standard deviation of the simple
per-tick returns over the price window (prior-zero steps skipped); it is 0
when the window has fewer than two prices or fewer than two usable returns;
it is 0 on an all-equal nonzero window; and it is never negative. -/
theorem realizedVol_spec (prices : List ℚ) (c : ℚ) :
    (2 ≤ prices.length → retsOf prices ≠ [] →
      RealizedVol prices = popStdDev (retsOf prices)) ∧
    (prices.length < 2 → RealizedVol prices = 0) ∧
    ((retsOf prices).length ≤ 1 → RealizedVol prices = 0) ∧
    (c ≠ 0 → (∀ p ∈ prices, p = c) → RealizedVol prices = 0) ∧
    0 ≤ RealizedVol prices :=
  ⟨fun h2 hne => realizedVol_eq_popStdDev prices hne h2,
   realizedVol_short prices,
   realizedVol_of_rets_le_one prices,
   fun hc hall => realizedVol_const prices c hc hall,
   realizedVol_nonneg prices⟩

/-- Witness for C8: a constant nonzero window yields zero volatility, and
volatility is non-negative there. -/
theorem realizedVol_spec_witness :
    RealizedVol [(3 : ℚ), 3, 3] = 0 ∧ 0 ≤ RealizedVol [(3 : ℚ), 3, 3] := by
  have h := realizedVol_spec [(3 : ℚ), 3, 3] 3
  exact ⟨h.2.2.2.1 (by norm_num) (by intro p hp; simpa using hp), h.2.2.2.2⟩

/-- C1: `BreachDailyLoss` is true iff the open equity is positive and the
loss percentage `(equityAtOpen - equityNow) / equityAtOpen * 100` is at
least the threshold; a non-positive open equity always yields false; and on
the literal test data, open equity 10000 with current equity 9400 breaches a
5% threshold while current equity 9600 does not. -/
theorem breachDailyLoss_spec (s : RState) (maxLossPct : ℚ) :
    (BreachDailyLoss s maxLossPct = true ↔
      0 < s.equityAtOpenUSD ∧
        (s.equityAtOpenUSD - s.equityNowUSD) / s.equityAtOpenUSD * 100 ≥ maxLossPct) ∧
    (s.equityAtOpenUSD ≤ 0 → BreachDailyLoss s maxLossPct = false) ∧
    BreachDailyLoss (UpdateEquity (NewState 10000 0 0) 9400) 5 = true ∧
    BreachDailyLoss (UpdateEquity (NewState 10000 0 0) 9600) 5 = false := by
  refine ⟨?_, ?_, by norm_num [BreachDailyLoss, UpdateEquity, NewState],
    by norm_num [BreachDailyLoss, UpdateEquity, NewState]⟩
  · by_cases h : s.equityAtOpenUSD ≤ 0
    · simp [BreachDailyLoss, h, not_lt.mpr h]
    · simp [BreachDailyLoss, h, not_le.mp h]
  · intro h
    simp [BreachDailyLoss, h]

/-- Witness for C1's conditional part: a negative open equity never trips
the kill-switch. -/
theorem breachDailyLoss_spec_witness :
    BreachDailyLoss (UpdateEquity (NewState (-5) 0 0) 9400) 5 = false :=
  (breachDailyLoss_spec (UpdateEquity (NewState (-5) 0 0) 9400) 5).2.1 (by decide)

/-- C3: activity is blocked (`CanAct` false) exactly when less than the
error cooldown has elapsed since the last recorded error (for any state
whose cooldown is a valid non-negative `time.Duration` and whose recorded
error is not in the future); an unset (zero-value) error timestamp never
blocks, because Go's saturating `time.Sub` caps the elapsed time at the
maximal duration, which is at least any representable cooldown (every real
wall-clock instant is far beyond `maxDuration` nanoseconds after the zero
time); and `NoteError` records the given instant as the error timestamp. -/
theorem canAct_spec (s : RState) (now : Int) :
    (0 ≤ s.errorCooldown → s.errorCooldown ≤ maxDuration → s.lastErrorTime ≤ now →
      (CanAct s now = false ↔ now - s.lastErrorTime < s.errorCooldown)) ∧
    (s.lastErrorTime = 0 → s.errorCooldown ≤ maxDuration → maxDuration ≤ now →
      CanAct s now = true) ∧
    (∀ t : Int, (NoteError s t).lastErrorTime = t) := by
  refine ⟨?_, ?_, fun t => rfl⟩
  · intro h1 h2 h3
    rw [CanAct, decide_eq_false_iff_not, not_le]
    simp only [timeSub, maxDuration, minDuration] at h2 ⊢
    split_ifs <;> constructor <;> intro <;> omega
  · intro h0 h2 h3
    rw [CanAct, decide_eq_true_eq]
    simp only [timeSub, maxDuration, minDuration, h0] at h2 h3 ⊢
    split_ifs <;> omega

/-- Witness for C3: a state that errored 50ns ago with a 100ns cooldown is
blocked; a state with an unset error time and a 5ns cooldown can act. -/
theorem canAct_spec_witness :
    CanAct ⟨0, 0, 0, 0, 50, 100, 0, []⟩ 60 = false ∧
    CanAct ⟨0, 0, 0, 0, 0, 5, 0, []⟩ maxDuration = true := by
  have h1 := (canAct_spec ⟨0, 0, 0, 0, 50, 100, 0, []⟩ 60).1
    (by decide) (by decide) (by decide)
  have h2 := (canAct_spec ⟨0, 0, 0, 0, 0, 5, 0, []⟩ maxDuration).2.1
    rfl (by decide) (by decide)
  exact ⟨h1.mpr (by decide), h2⟩

/-- One day in nanoseconds. -/
def nsPerDay : Int := 86400000000000

/-- `util.TodayOpen`: the instant of the local midnight (00:00) of the local
day containing `now`, for a fixed-offset timezone `tz` (offset east of UTC
in nanoseconds; an unrecognized timezone name defaults to UTC, i.e.
`tz = 0`). -/
def TodayOpen (tz now : Int) : Int :=
  ((now + tz).fdiv nsPerDay) * nsPerDay - tz

/-- `util.SameTradingDay`: two instants share a trading day iff their local
midnights coincide. -/
def SameTradingDay (tz a b : Int) : Bool :=
  decide (TodayOpen tz a = TodayOpen tz b)

/-- `util.DaySnapshot`. `dayOpen` is the parse of the persisted
`day_open_iso` field: `none` models an empty or unparsable string
(`util.ParseDayOpenISO` failing). -/
structure DaySnapshot where
  dayOpen : Option Int
  timezone : Int
  equityAtOpenUSD : ℚ
  ordersToday : ℤ
  realizedPnLUSD : ℚ
deriving DecidableEq

/-- `util.SeedForToday`: a fresh snapshot for the current trading day. -/
def SeedForToday (tz now : Int) (equityAtOpen : ℚ) : DaySnapshot :=
  { dayOpen := some (TodayOpen tz now)
    timezone := tz
    equityAtOpenUSD := equityAtOpen
    ordersToday := 0
    realizedPnLUSD := 0 }

/-- `DayManager.RolloverIfNeeded`: no-op within the same trading day,
otherwise reset the risk state for the new day (the snapshot write is
best-effort I/O and does not affect the returned state). -/
def RolloverIfNeeded (tz now : Int) (equityNow : ℚ) (rs : RState) :
    Bool × RState :=
  if SameTradingDay tz rs.dayOpen now then (false, rs)
  else (true, ResetDay rs equityNow (TodayOpen tz now))

/-- `DayManager.InitAtStartup`: seed, roll, or reuse the loaded snapshot.
`loaded = none` models `util.LoadSnapshot` failing (missing/corrupt file);
a snapshot with `dayOpen = none` models an unparsable `day_open_iso`. -/
def InitAtStartup (tz now : Int) (equityNow : ℚ) (rs : RState)
    (loaded : Option DaySnapshot) : DaySnapshot × ℚ × RState :=
  let seed := SeedForToday tz now equityNow
  match loaded with
  | none =>
      (seed, seed.equityAtOpenUSD,
        ResetDay rs seed.equityAtOpenUSD (TodayOpen tz now))
  | some snap =>
      match snap.dayOpen with
      | none =>
          (seed, seed.equityAtOpenUSD,
            ResetDay rs seed.equityAtOpenUSD (TodayOpen tz now))
      | some prev =>
          if SameTradingDay tz prev now then
            let rs1 := ResetDay rs snap.equityAtOpenUSD (TodayOpen tz now)
            (snap, snap.equityAtOpenUSD,
              { rs1 with
                ordersToday := snap.ordersToday
                realizedPnLUSD := snap.realizedPnLUSD })
          else
            (seed, seed.equityAtOpenUSD,
              ResetDay rs seed.equityAtOpenUSD (TodayOpen tz now))

/-- C9: `RolloverIfNeeded` is a no-op returning `false` iff `now` has the
same local midnight as the state's day-open; otherwise it returns `true`
and resets the risk state with `equityNow` as the new equity-at-open,
anchored at `now`'s local midnight, with order count, realized P&L and the
price window discarded. Likewise, at startup a parsable snapshot whose
day-open lies on a different local day than `now` is discarded and replaced
by a fresh seed anchored at today's local midnight. -/
theorem dayRollover_spec (tz now : Int) (equityNow : ℚ) (rs : RState)
    (snap : DaySnapshot) (prev : Int) :
    ((RolloverIfNeeded tz now equityNow rs).1 = false ↔
      TodayOpen tz rs.dayOpen = TodayOpen tz now) ∧
    (TodayOpen tz rs.dayOpen = TodayOpen tz now →
      (RolloverIfNeeded tz now equityNow rs).2 = rs) ∧
    (TodayOpen tz rs.dayOpen ≠ TodayOpen tz now →
      (RolloverIfNeeded tz now equityNow rs).1 = true ∧
      (RolloverIfNeeded tz now equityNow rs).2 =
        ResetDay rs equityNow (TodayOpen tz now)) ∧
    ((ResetDay rs equityNow (TodayOpen tz now)).equityAtOpenUSD = equityNow ∧
      (ResetDay rs equityNow (TodayOpen tz now)).equityNowUSD = equityNow ∧
      (ResetDay rs equityNow (TodayOpen tz now)).ordersToday = 0 ∧
      (ResetDay rs equityNow (TodayOpen tz now)).realizedPnLUSD = 0 ∧
      (ResetDay rs equityNow (TodayOpen tz now)).dayOpen = TodayOpen tz now ∧
      (ResetDay rs equityNow (TodayOpen tz now)).prices = []) ∧
    (snap.dayOpen = some prev → TodayOpen tz prev ≠ TodayOpen tz now →
      InitAtStartup tz now equityNow rs (some snap) =
        (SeedForToday tz now equityNow, equityNow,
          ResetDay rs equityNow (TodayOpen tz now))) := by
  refine ⟨?_, ?_, ?_, ⟨rfl, rfl, rfl, rfl, rfl, rfl⟩, ?_⟩
  · by_cases h : TodayOpen tz rs.dayOpen = TodayOpen tz now
    · simp [RolloverIfNeeded, SameTradingDay, h]
    · simp [RolloverIfNeeded, SameTradingDay, h]
  · intro h
    simp [RolloverIfNeeded, SameTradingDay, h]
  · intro h
    simp [RolloverIfNeeded, SameTradingDay, h]
  · intro hprev h
    simp [InitAtStartup, hprev, SameTradingDay, h, SeedForToday]

/-- Witness for C9: with UTC offset 0, a state whose day opened at instant 0
rolls over at the first instant of the next day, resetting the counters. -/
theorem dayRollover_spec_witness :
    (RolloverIfNeeded 0 nsPerDay 500 ⟨100, 90, 7, -3, 0, 0, 0, [1]⟩).1 = true ∧
    (RolloverIfNeeded 0 nsPerDay 500 ⟨100, 90, 7, -3, 0, 0, 0, [1]⟩).2 =
      ResetDay ⟨100, 90, 7, -3, 0, 0, 0, [1]⟩ 500 (TodayOpen 0 nsPerDay) := by
  exact (dayRollover_spec 0 nsPerDay 500 ⟨100, 90, 7, -3, 0, 0, 0, [1]⟩
    ⟨none, 0, 0, 0, 0⟩ 0).2.2.1 (by decide)

/-- `guards.breakerState`. -/
inductive BreakerState where
  | closed
  | halfOpen
  | opened
deriving DecidableEq

/-- `guards.SafeExchange`: the execution-safety wrapper's mutable state
(src/internal/guards/safe_exchange.go). The `inner` exchange is supplied to
`PlaceMarket` as the outcome function of its attempts; Prometheus metrics
are pure observers and are not modelled. -/
structure SafeExchange where
  riskS : RState
  orderTimes : List Int
  perMinuteCap : ℤ
  maxRetries : ℕ
  dupWindow : Int
  lastOrderKey : String
  lastOrderAt : Int
  bState : BreakerState
  failStreak : ℕ
  threshold : ℕ
  cooldown : Int
  openedAt : Int
  halfProbes : ℕ
  halfMax : ℕ

/-- One minute in nanoseconds. -/
def oneMinute : Int := 60000000000

/-- The pruning step of `SafeExchange.rateExceeded`: keep only the
timestamps strictly after `now - 1 minute` (Go `t.After(oneMin)`). -/
def pruneWindow (now : Int) (times : List Int) : List Int :=
  times.filter (fun t => decide (now - oneMinute < t))

/-- `SafeExchange.rateExceeded`: prune the sliding window, then report
whether the per-minute cap (when positive) is reached. Returns the verdict
and the updated state. -/
def rateExceeded (s : SafeExchange) (now : Int) : Bool × SafeExchange :=
  let kept := pruneWindow now s.orderTimes
  (decide (0 < s.perMinuteCap ∧ s.perMinuteCap ≤ (kept.length : ℤ)),
    { s with orderTimes := kept })

/-- `SafeExchange.rateNote`: record an accepted order's timestamp. -/
def rateNote (s : SafeExchange) (t : Int) : SafeExchange :=
  { s with orderTimes := s.orderTimes ++ [t] }

/-- `SafeExchange.ordKey`: the duplicate-suppression fingerprint of
(symbol, side, quantity). Go hashes the concatenated encoding with SHA-256;
the hash is modelled by the concatenated encoding itself. -/
def ordKey (symbol side : String) (qty : ℚ) : String :=
  symbol ++ side ++ toString qty

/-- `SafeExchange.allowBreaker`: the circuit-breaker gate. Returns whether
the attempt may proceed and the (possibly transitioned) state. -/
def allowBreaker (s : SafeExchange) (now : Int) : Bool × SafeExchange :=
  match s.bState with
  | .closed => (true, s)
  | .opened =>
      if timeSub now s.openedAt ≥ s.cooldown then
        (true, { s with bState := .halfOpen, halfProbes := 0 })
      else
        (false, s)
  | .halfOpen =>
      if s.halfProbes < s.halfMax then (true, s)
      else (false, s)

/-- `SafeExchange.noteSuccess`: record the order in the rate window, update
the dedup fingerprint, and apply the breaker's success transition. -/
def noteSuccess (s : SafeExchange) (now : Int) (okey : String) : SafeExchange :=
  let s1 := rateNote s now
  let s2 := { s1 with lastOrderKey := okey, lastOrderAt := now }
  -- the updates above leave `bState` untouched, so Go's switch reads the
  -- same value as `s.bState`
  match s.bState with
  | .closed => { s2 with failStreak := 0 }
  | .halfOpen => { s2 with bState := .closed, failStreak := 0 }
  | .opened => s2

/-- `SafeExchange.noteFailure`: start the risk cooldown and apply the
breaker's failure transition. -/
def noteFailure (s : SafeExchange) (now : Int) : SafeExchange :=
  let s1 := { s with riskS := NoteError s.riskS now }
  -- `s1` only updates `riskS`, so Go's switch reads the same value as
  -- `s.bState`, and `s1.failStreak`/`s1.threshold` equal `s.failStreak`/
  -- `s.threshold`
  match s.bState with
  | .closed =>
      if s.failStreak + 1 ≥ s.threshold then
        { s1 with failStreak := s.failStreak + 1
                  openedAt := now
                  bState := .opened }
      else
        { s1 with failStreak := s.failStreak + 1 }
  | .halfOpen =>
      { s1 with openedAt := now, bState := .opened, failStreak := s.threshold }
  | .opened => { s1 with openedAt := now }

/-- Outcome of a `PlaceMarket` call: one denial per gate, a successful
placement, or a terminal failure after exhausting all retries. -/
inductive Outcome where
  | deniedCooldown
  | deniedBreaker
  | deniedRate
  | deniedDup
  | placed
  | failed
deriving DecidableEq

/-- Result of a `PlaceMarket` call: its outcome, how many times the inner
exchange was invoked, and the wrapper state afterwards. -/
structure PMResult where
  outcome : Outcome
  innerCalls : ℕ
  state : SafeExchange

/-- `SafeExchange.PlaceMarket`: gate the submission through cooldown,
breaker, rate and duplicate checks, then try the inner exchange up to
`1 + maxRetries` times. `innerOK i` tells whether the i-th inner attempt
succeeds (the inner exchange's behaviour is the only unmodelled input). -/
def PlaceMarket (s : SafeExchange) (now : Int) (symbol side : String)
    (qty : ℚ) (innerOK : ℕ → Bool) : PMResult :=
  if CanAct s.riskS now = false then ⟨.deniedCooldown, 0, s⟩
  else
    let ab := allowBreaker s now
    if ab.1 = false then ⟨.deniedBreaker, 0, ab.2⟩
    else
      let re := rateExceeded ab.2 now
      if re.1 = true then ⟨.deniedRate, 0, re.2⟩
      else
        let okey := ordKey symbol side qty
        if okey = re.2.lastOrderKey ∧ timeSub now re.2.lastOrderAt < re.2.dupWindow then
          ⟨.deniedDup, 0, re.2⟩
        else
          match (List.range (re.2.maxRetries + 1)).find? innerOK with
          | some i => ⟨.placed, i + 1, noteSuccess re.2 now okey⟩
          | none => ⟨.failed, re.2.maxRetries + 1, noteFailure re.2 now⟩

theorem allowBreaker_snd_cases (s : SafeExchange) (now : Int) :
    (allowBreaker s now).2 = s ∨
    (allowBreaker s now).2 = { s with bState := .halfOpen, halfProbes := 0 } := by
  unfold allowBreaker
  cases s.bState
  · exact Or.inl rfl
  · dsimp only
    split
    · exact Or.inl rfl
    · exact Or.inl rfl
  · dsimp only
    split
    · exact Or.inr rfl
    · exact Or.inl rfl

theorem noteFailure_closed_small (s : SafeExchange) (t : Int)
    (hb : s.bState = .closed) (h : s.failStreak + 1 < s.threshold) :
    noteFailure s t =
      { s with riskS := NoteError s.riskS t, failStreak := s.failStreak + 1 } := by
  simp only [noteFailure, hb]
  rw [if_neg (by omega)]

theorem noteFailure_closed_hit (s : SafeExchange) (t : Int)
    (hb : s.bState = .closed) (h : s.threshold ≤ s.failStreak + 1) :
    noteFailure s t =
      { s with riskS := NoteError s.riskS t
               failStreak := s.failStreak + 1
               openedAt := t
               bState := .opened } := by
  simp only [noteFailure, hb]
  rw [if_pos (by omega)]

theorem noteFailure_opened (s : SafeExchange) (t : Int)
    (hb : s.bState = .opened) :
    noteFailure s t = { s with riskS := NoteError s.riskS t, openedAt := t } := by
  simp only [noteFailure, hb]

theorem foldFail_closed (ts : List Int) : ∀ s : SafeExchange,
    s.bState = .closed → s.failStreak + ts.length < s.threshold →
    (ts.foldl (fun st t => noteFailure st t) s).bState = .closed ∧
    (ts.foldl (fun st t => noteFailure st t) s).failStreak = s.failStreak + ts.length ∧
    (ts.foldl (fun st t => noteFailure st t) s).threshold = s.threshold := by
  induction ts with
  | nil =>
      intro s hb hlt
      exact ⟨hb, by simp, rfl⟩
  | cons t ts ih =>
      intro s hb hlt
      simp only [List.length_cons] at hlt
      simp only [List.foldl_cons]
      rw [noteFailure_closed_small s t hb (by omega)]
      obtain ⟨h1, h2, h3⟩ :=
        ih { s with riskS := NoteError s.riskS t, failStreak := s.failStreak + 1 }
          (by simp [hb]) (by simp; omega)
      refine ⟨h1, ?_, by rw [h3]⟩
      rw [h2]
      simp
      omega

theorem noteSuccess_closed (s : SafeExchange) (now : Int) (okey : String)
    (hb : s.bState = .closed) :
    (noteSuccess s now okey).bState = .closed ∧
    (noteSuccess s now okey).failStreak = 0 := by
  simp [noteSuccess, rateNote, hb]

/-- C4: from a Closed breaker with a zero failure streak, a run of
consecutive terminal failures whose length equals the configured threshold
(which the constructor forces to be at least 1) drives the breaker Open,
while a success after any shorter run of failures leaves the breaker Closed
with the failure streak reset to 0. -/
theorem breakerThreshold_spec (s : SafeExchange) (hb : s.bState = .closed)
    (h0 : s.failStreak = 0) (h1 : 1 ≤ s.threshold) :
    (∀ ts : List Int, ts.length = s.threshold →
      (ts.foldl (fun st t => noteFailure st t) s).bState = .opened) ∧
    (∀ (ts : List Int) (now : Int) (okey : String), ts.length < s.threshold →
      (noteSuccess (ts.foldl (fun st t => noteFailure st t) s) now okey).bState = .closed ∧
      (noteSuccess (ts.foldl (fun st t => noteFailure st t) s) now okey).failStreak = 0) := by
  constructor
  · intro ts hlen
    have hne : ts ≠ [] := by
      intro h
      rw [h] at hlen
      simp at hlen
      omega
    have hsplit : ts.dropLast ++ [ts.getLast hne] = ts :=
      List.dropLast_append_getLast hne
    rw [← hsplit, List.foldl_append, List.foldl_cons, List.foldl_nil]
    have hdl : ts.dropLast.length = s.threshold - 1 := by
      rw [List.length_dropLast, hlen]
    obtain ⟨hb2, hfs, hth⟩ := foldFail_closed ts.dropLast s hb (by omega)
    rw [noteFailure_closed_hit _ _ hb2 (by rw [hfs, hth, h0, hdl]; omega)]
  · intro ts now okey hlen
    obtain ⟨hb2, hfs, hth⟩ := foldFail_closed ts s hb (by omega)
    exact noteSuccess_closed _ now okey hb2

/-- A concrete quiescent wrapper state used to instantiate the guard
theorems. -/
def baseEx : SafeExchange :=
  { riskS := ⟨0, 0, 0, 0, 0, 0, 0, []⟩
    orderTimes := []
    perMinuteCap := 0
    maxRetries := 0
    dupWindow := 0
    lastOrderKey := ""
    lastOrderAt := 0
    bState := .closed
    failStreak := 0
    threshold := 2
    cooldown := 100
    openedAt := 0
    halfProbes := 0
    halfMax := 1 }

/-- Witness for C4: with threshold 2, two straight failures open the
breaker, and a success after one failure re-closes the streak. -/
theorem breakerThreshold_spec_witness :
    ([5, 6].foldl (fun st t => noteFailure st t) baseEx).bState = .opened ∧
    (noteSuccess ([5].foldl (fun st t => noteFailure st t) baseEx) 7 "k").bState = .closed := by
  have h := breakerThreshold_spec baseEx rfl rfl (by decide)
  exact ⟨h.1 [5, 6] rfl, (h.2 [5] 7 "k" (by decide)).1⟩

/-- C5: the rate gate trips exactly when the cap is positive and the count
of recorded order timestamps lying within the trailing 60 seconds of `now`
is at or above the cap; a cap of 0 disables the gate entirely; and the
check prunes the window to exactly the timestamps inside the trailing
minute. -/
theorem rateLimit_spec (s : SafeExchange) (now : Int) :
    ((rateExceeded s now).1 = true ↔
      0 < s.perMinuteCap ∧
        s.perMinuteCap ≤ (s.orderTimes.countP (fun t => decide (now - oneMinute < t)) : ℤ)) ∧
    (s.perMinuteCap = 0 → (rateExceeded s now).1 = false) ∧
    (rateExceeded s now).2.orderTimes =
      s.orderTimes.filter (fun t => decide (now - oneMinute < t)) := by
  refine ⟨?_, ?_, rfl⟩
  · rw [rateExceeded]
    simp only [decide_eq_true_eq]
    rw [pruneWindow, List.countP_eq_length_filter]
  · intro h
    rw [rateExceeded]
    simp [h]

/-- Witness for C5: with cap 2 and two of three recorded timestamps inside
the trailing minute, the gate trips. -/
theorem rateLimit_spec_witness :
    (rateExceeded { baseEx with perMinuteCap := 2, orderTimes := [50, 55, -100] } 60).1 = true :=
  (rateLimit_spec { baseEx with perMinuteCap := 2, orderTimes := [50, 55, -100] } 60).1.mpr
    ⟨by decide, by decide⟩

theorem noteFailure_halfOpen (s : SafeExchange) (t : Int)
    (hb : s.bState = .halfOpen) :
    noteFailure s t =
      { s with riskS := NoteError s.riskS t, openedAt := t, bState := .opened,
               failStreak := s.threshold } := by
  simp only [noteFailure, hb]

theorem noteFailure_fields (s : SafeExchange) (now : Int) :
    (noteFailure s now).orderTimes = s.orderTimes ∧
    (noteFailure s now).lastOrderKey = s.lastOrderKey ∧
    (noteFailure s now).lastOrderAt = s.lastOrderAt := by
  cases hb : s.bState
  · by_cases hc : s.threshold ≤ s.failStreak + 1
    · rw [noteFailure_closed_hit s now hb hc]
      exact ⟨rfl, rfl, rfl⟩
    · rw [noteFailure_closed_small s now hb (by omega)]
      exact ⟨rfl, rfl, rfl⟩
  · rw [noteFailure_halfOpen s now hb]
    exact ⟨rfl, rfl, rfl⟩
  · rw [noteFailure_opened s now hb]
    exact ⟨rfl, rfl, rfl⟩

theorem noteSuccess_fields (s : SafeExchange) (now : Int) (okey : String) :
    (noteSuccess s now okey).orderTimes = s.orderTimes ++ [now] ∧
    (noteSuccess s now okey).lastOrderKey = okey ∧
    (noteSuccess s now okey).lastOrderAt = now := by
  unfold noteSuccess
  cases s.bState <;> exact ⟨rfl, rfl, rfl⟩

/-- C6: with the cooldown, breaker and rate gates all passing, a
`PlaceMarket` call whose (symbol, side, quantity) fingerprint equals the
most recently accepted order's fingerprint is denied by the duplicate gate
iff strictly less than the dedup window has elapsed since that accepted
order; once at least the dedup window has elapsed, the same triple passes
the duplicate gate (the call is placed or fails on the inner exchange, but
is not suppressed). -/
theorem dupGate_spec (s : SafeExchange) (now : Int) (symbol side : String)
    (qty : ℚ) (innerOK : ℕ → Bool)
    (hkey : ordKey symbol side qty = s.lastOrderKey)
    (hact : CanAct s.riskS now = true)
    (hbrk : (allowBreaker s now).1 = true)
    (hrate : (rateExceeded (allowBreaker s now).2 now).1 = false) :
    ((PlaceMarket s now symbol side qty innerOK).outcome = .deniedDup ↔
      timeSub now s.lastOrderAt < s.dupWindow) ∧
    (s.dupWindow ≤ timeSub now s.lastOrderAt →
      (PlaceMarket s now symbol side qty innerOK).outcome = .placed ∨
      (PlaceMarket s now symbol side qty innerOK).outcome = .failed) := by
  have hca : ¬ (CanAct s.riskS now = false) := by
    rw [hact]
    exact fun h => Bool.noConfusion h
  have hab : ¬ ((allowBreaker s now).1 = false) := by
    rw [hbrk]
    exact fun h => Bool.noConfusion h
  have hre : ¬ ((rateExceeded (allowBreaker s now).2 now).1 = true) := by
    rw [hrate]
    exact fun h => Bool.noConfusion h
  have hfields : (rateExceeded (allowBreaker s now).2 now).2.lastOrderKey = s.lastOrderKey ∧
      (rateExceeded (allowBreaker s now).2 now).2.lastOrderAt = s.lastOrderAt ∧
      (rateExceeded (allowBreaker s now).2 now).2.dupWindow = s.dupWindow := by
    rcases allowBreaker_snd_cases s now with h | h <;> rw [h] <;> exact ⟨rfl, rfl, rfl⟩
  obtain ⟨hk2, ha2, hw2⟩ := hfields
  by_cases hdup : timeSub now s.lastOrderAt < s.dupWindow
  · have hcond : ordKey symbol side qty =
        (rateExceeded (allowBreaker s now).2 now).2.lastOrderKey ∧
        timeSub now (rateExceeded (allowBreaker s now).2 now).2.lastOrderAt <
          (rateExceeded (allowBreaker s now).2 now).2.dupWindow := by
      rw [hk2, ha2, hw2]
      exact ⟨hkey, hdup⟩
    have hpm : (PlaceMarket s now symbol side qty innerOK).outcome = .deniedDup := by
      simp only [PlaceMarket]
      rw [if_neg hca, if_neg hab, if_neg hre, if_pos hcond]
    exact ⟨⟨fun _ => hdup, fun _ => hpm⟩, fun hge => absurd hdup (not_lt.mpr hge)⟩
  · have hcond : ¬ (ordKey symbol side qty =
        (rateExceeded (allowBreaker s now).2 now).2.lastOrderKey ∧
        timeSub now (rateExceeded (allowBreaker s now).2 now).2.lastOrderAt <
          (rateExceeded (allowBreaker s now).2 now).2.dupWindow) := by
      rw [hk2, ha2, hw2]
      rintro ⟨-, h⟩
      exact hdup h
    have houtcome : (PlaceMarket s now symbol side qty innerOK).outcome = .placed ∨
        (PlaceMarket s now symbol side qty innerOK).outcome = .failed := by
      simp only [PlaceMarket]
      rw [if_neg hca, if_neg hab, if_neg hre, if_neg hcond]
      cases hf : (List.range
          ((rateExceeded (allowBreaker s now).2 now).2.maxRetries + 1)).find? innerOK
      · exact Or.inr rfl
      · exact Or.inl rfl
    refine ⟨⟨fun hout => ?_, fun hlt => absurd hlt hdup⟩, fun _ => houtcome⟩
    rcases houtcome with h | h <;> rw [hout] at h <;> exact Outcome.noConfusion h

/-- A wrapper state whose last accepted order has the fingerprint of
(BTC-USD, BUY, qty 1), accepted at instant 0, with a 10ns dedup window. -/
def sDup : SafeExchange :=
  { baseEx with lastOrderKey := ordKey "BTC-USD" "BUY" 1, lastOrderAt := 0, dupWindow := 10 }

/-- Witness for C6: resubmitting the same triple 5ns after acceptance, with
a 10ns window, is suppressed as a duplicate. -/
theorem dupGate_spec_witness :
    (PlaceMarket sDup 5 "BTC-USD" "BUY" 1 (fun _ => true)).outcome = .deniedDup :=
  (dupGate_spec sDup 5 "BTC-USD" "BUY" 1 (fun _ => true) rfl (by decide) (by decide)
    (by decide)).1.mpr (by decide)

/-- C10: a `PlaceMarket` call that does not succeed — denied by any gate or
failed after exhausting all retries — appends no timestamp to the rate
window (the window can only have been pruned) and leaves the dedup
fingerprint and its timestamp unchanged; a successful submission appends
exactly its timestamp to the pruned window and updates the fingerprint and
timestamp. -/
theorem placeMarket_frame (s : SafeExchange) (now : Int) (symbol side : String)
    (qty : ℚ) (innerOK : ℕ → Bool) :
    ((PlaceMarket s now symbol side qty innerOK).outcome ≠ .placed →
      (PlaceMarket s now symbol side qty innerOK).state.lastOrderKey = s.lastOrderKey ∧
      (PlaceMarket s now symbol side qty innerOK).state.lastOrderAt = s.lastOrderAt ∧
      (PlaceMarket s now symbol side qty innerOK).state.orderTimes.Sublist s.orderTimes) ∧
    ((PlaceMarket s now symbol side qty innerOK).outcome = .placed →
      (PlaceMarket s now symbol side qty innerOK).state.orderTimes =
        pruneWindow now s.orderTimes ++ [now] ∧
      (PlaceMarket s now symbol side qty innerOK).state.lastOrderKey = ordKey symbol side qty ∧
      (PlaceMarket s now symbol side qty innerOK).state.lastOrderAt = now) := by
  by_cases h1 : CanAct s.riskS now = false
  · have hpm : PlaceMarket s now symbol side qty innerOK = ⟨.deniedCooldown, 0, s⟩ := by
      simp only [PlaceMarket]
      rw [if_pos h1]
    rw [hpm]
    exact ⟨fun _ => ⟨rfl, rfl, List.Sublist.refl _⟩, fun hP => Outcome.noConfusion hP⟩
  by_cases h2 : (allowBreaker s now).1 = false
  · have hpm : PlaceMarket s now symbol side qty innerOK =
        ⟨.deniedBreaker, 0, (allowBreaker s now).2⟩ := by
      simp only [PlaceMarket]
      rw [if_neg h1, if_pos h2]
    rw [hpm]
    refine ⟨fun _ => ?_, fun hP => Outcome.noConfusion hP⟩
    rcases allowBreaker_snd_cases s now with h | h <;> rw [h] <;>
      exact ⟨rfl, rfl, List.Sublist.refl _⟩
  by_cases h3 : (rateExceeded (allowBreaker s now).2 now).1 = true
  · have hpm : PlaceMarket s now symbol side qty innerOK =
        ⟨.deniedRate, 0, (rateExceeded (allowBreaker s now).2 now).2⟩ := by
      simp only [PlaceMarket]
      rw [if_neg h1, if_neg h2, if_pos h3]
    rw [hpm]
    refine ⟨fun _ => ?_, fun hP => Outcome.noConfusion hP⟩
    rcases allowBreaker_snd_cases s now with h | h <;> rw [h] <;>
      exact ⟨rfl, rfl, List.filter_sublist _⟩
  by_cases h4 : (ordKey symbol side qty =
      (rateExceeded (allowBreaker s now).2 now).2.lastOrderKey ∧
      timeSub now (rateExceeded (allowBreaker s now).2 now).2.lastOrderAt <
        (rateExceeded (allowBreaker s now).2 now).2.dupWindow)
  · have hpm : PlaceMarket s now symbol side qty innerOK =
        ⟨.deniedDup, 0, (rateExceeded (allowBreaker s now).2 now).2⟩ := by
      simp only [PlaceMarket]
      rw [if_neg h1, if_neg h2, if_neg h3, if_pos h4]
    rw [hpm]
    refine ⟨fun _ => ?_, fun hP => Outcome.noConfusion hP⟩
    rcases allowBreaker_snd_cases s now with h | h <;> rw [h] <;>
      exact ⟨rfl, rfl, List.filter_sublist _⟩
  · cases hf : (List.range
        ((rateExceeded (allowBreaker s now).2 now).2.maxRetries + 1)).find? innerOK with
    | none =>
        have hpm : PlaceMarket s now symbol side qty innerOK =
            ⟨.failed, (rateExceeded (allowBreaker s now).2 now).2.maxRetries + 1,
              noteFailure (rateExceeded (allowBreaker s now).2 now).2 now⟩ := by
          simp only [PlaceMarket]
          rw [if_neg h1, if_neg h2, if_neg h3, if_neg h4, hf]
        rw [hpm]
        refine ⟨fun _ => ?_, fun hP => Outcome.noConfusion hP⟩
        obtain ⟨hA, hB, hC⟩ :=
          noteFailure_fields (rateExceeded (allowBreaker s now).2 now).2 now
        refine ⟨?_, ?_, ?_⟩
        · rw [hB]
          rcases allowBreaker_snd_cases s now with h | h <;> rw [h] <;> rfl
        · rw [hC]
          rcases allowBreaker_snd_cases s now with h | h <;> rw [h] <;> rfl
        · rw [hA]
          rcases allowBreaker_snd_cases s now with h | h <;> rw [h] <;>
            exact List.filter_sublist _
    | some i =>
        have hpm : PlaceMarket s now symbol side qty innerOK =
            ⟨.placed, i + 1,
              noteSuccess (rateExceeded (allowBreaker s now).2 now).2 now
                (ordKey symbol side qty)⟩ := by
          simp only [PlaceMarket]
          rw [if_neg h1, if_neg h2, if_neg h3, if_neg h4, hf]
        rw [hpm]
        refine ⟨fun hne => absurd rfl hne, fun _ => ?_⟩
        obtain ⟨hA, hB, hC⟩ :=
          noteSuccess_fields (rateExceeded (allowBreaker s now).2 now).2 now
            (ordKey symbol side qty)
        refine ⟨?_, hB, hC⟩
        rw [hA]
        rcases allowBreaker_snd_cases s now with h | h <;> rw [h] <;> rfl

/-- A wrapper state still inside its error cooldown at instant 60: the last
error was at 50 and the cooldown is 1000ns. -/
def sCool : SafeExchange :=
  { baseEx with riskS := ⟨0, 0, 0, 0, 50, 1000, 0, []⟩ }

/-- Witness for C10: a call denied by the cooldown gate leaves the dedup
fingerprint, its timestamp and the rate window untouched. -/
theorem placeMarket_frame_witness :
    (PlaceMarket sCool 60 "BTC-USD" "BUY" 1 (fun _ => true)).state.lastOrderKey =
      sCool.lastOrderKey ∧
    (PlaceMarket sCool 60 "BTC-USD" "BUY" 1 (fun _ => true)).state.lastOrderAt =
      sCool.lastOrderAt ∧
    (PlaceMarket sCool 60 "BTC-USD" "BUY" 1 (fun _ => true)).state.orderTimes.Sublist
      sCool.orderTimes :=
  (placeMarket_frame sCool 60 "BTC-USD" "BUY" 1 (fun _ => true)).1 (by decide)

/-- C2 (the code evaluated at the failing input): starting from an Open
breaker whose cooldown (100ns, opened at 0) has just elapsed at instant
100, with the half-open probe limit configured to 1, the first gate check
transitions the breaker to HalfOpen and is allowed — but a second and a
third check, with NO probe having resolved in between, are also allowed:
`allowBreaker` never increments `halfProbes`, so the half-open probe cap
never denies anything. -/
theorem allowBreaker_halfOpen_unbounded :
    (allowBreaker { baseEx with bState := .opened, failStreak := 2 } 100).1 = true ∧
    (allowBreaker { baseEx with bState := .opened, failStreak := 2 } 100).2.bState =
      .halfOpen ∧
    (allowBreaker { baseEx with bState := .opened, failStreak := 2 } 100).2.halfMax = 1 ∧
    (allowBreaker
      ((allowBreaker { baseEx with bState := .opened, failStreak := 2 } 100).2) 100).1 =
      true ∧
    (allowBreaker
      ((allowBreaker { baseEx with bState := .opened, failStreak := 2 } 100).2) 100).2.halfProbes =
      0 ∧
    (allowBreaker
      ((allowBreaker
        ((allowBreaker { baseEx with bState := .opened, failStreak := 2 } 100).2) 100).2) 100).1 =
      true :=
  ⟨rfl, rfl, rfl, rfl, rfl, rfl⟩
